import Mathlib

/-
Verification of the cost-sensitive multiclass reduction layer (CSOAA / WAP-LDF)
of this repository.

The repository fragment under src/ contains only the public header
`src/vowpalwabbit/csoaa.h`, which declares the two setup entry points
`CSOAA::setup` and `CSOAA_AND_WAP_LDF::setup`.  The bodies of the reductions
(example model, validation, OAA learn/predict, WAP-LDF learn/predict, and the
reduction driver) are not part of the fragment, so they are modelled here from
the specification, faithfully to its words.  Costs and scores are elements of
an arbitrary linearly ordered commutative ring `α`, standing for the spec's
non-negative reals; concrete evaluations instantiate `α := ℤ`.
-/

/-- Modelled from the spec: a label-cost pair of a cost-sensitive example —
a label identifier (integer ≥ 1) together with its real-valued cost.
The implementation of the cost-sensitive example model is absent from src/. -/
structure LabelCost (α : Type) where
  label : Nat
  cost : α
deriving DecidableEq, Repr

/-- Modelled from the spec: a cost-sensitive example — a shared feature
vector, an ordered sequence of label-cost pairs, and (LDF mode) a mapping
from label identifier to a label-dependent feature vector. -/
structure CSExample (α : Type) where
  feats : List α
  pairs : List (LabelCost α)
  ldf : List (Nat × List α)
deriving DecidableEq, Repr

/-- Modelled from the spec: a transient sub-example handed to the base
learner — the labels it concerns (one for OAA, an unordered pair for WAP),
a feature vector, an importance weight and a target value. -/
structure SubExample (α : Type) where
  tags : List Nat
  feats : List α
  weight : α
  target : α
deriving DecidableEq, Repr

/-- Modelled from the spec: the abstract base-learner contract — a pure
state-passing rendering of `predict(example) -> score` and `learn(example)`
mutating the weight state. -/
structure BaseLearner (σ α : Type) where
  predictB : σ → SubExample α → α
  learnB : σ → SubExample α → σ

/-- Modelled from the spec: the per-example error taxonomy of §7. -/
inductive RedError where
  | MalformedExample
  | InvalidLDFMapping
  | NoCandidateLabels
  | EmptyCandidateSet
deriving DecidableEq, Repr

/-- Order on label-cost pairs by label identifier. -/
def labelLE {α : Type} (a b : LabelCost α) : Prop := a.label ≤ b.label

instance {α : Type} : DecidableRel (@labelLE α) :=
  fun a b => inferInstanceAs (Decidable (a.label ≤ b.label))

instance {α : Type} : IsTotal (LabelCost α) labelLE :=
  ⟨fun a b => Nat.le_total a.label b.label⟩

instance {α : Type} : IsTrans (LabelCost α) labelLE :=
  ⟨fun _ _ _ => Nat.le_trans⟩

/-- Modelled from the spec: deterministic ascending-label-id enumeration of
the label-cost pairs ("Processing order across labels is deterministic
(ascending label id)"). -/
def sortPairs {α : Type} (l : List (LabelCost α)) : List (LabelCost α) :=
  List.insertionSort labelLE l

/-- Modelled from the spec: structural validity of a cost-sensitive example —
labels within one example are unique, costs are non-negative, label ids
are ≥ 1. -/
def validCS {α : Type} [LinearOrderedCommRing α] (ex : CSExample α) : Prop :=
  (ex.pairs.map LabelCost.label).Nodup ∧ ∀ p ∈ ex.pairs, 0 ≤ p.cost ∧ 1 ≤ p.label

instance {α : Type} [LinearOrderedCommRing α] (ex : CSExample α) :
    Decidable (validCS ex) :=
  inferInstanceAs (Decidable (_ ∧ _))

/-- Modelled from the spec: `validate(example) -> ok | error` checking label
uniqueness, non-negative costs, and (LDF mode) completeness of the
label-dependent feature mapping against the label-cost pairs, in that order. -/
def validate {α : Type} [LinearOrderedCommRing α] (ldfMode : Bool)
    (ex : CSExample α) : Option RedError :=
  if ¬ (ex.pairs.map LabelCost.label).Nodup then some .MalformedExample
  else if ex.pairs.any (fun p => decide (p.cost < 0)) then some .MalformedExample
  else if ldfMode && ex.pairs.any (fun p => (List.lookup p.label ex.ldf).isNone) then
    some .InvalidLDFMapping
  else none

/-- The label a sub-example primarily concerns (head of its tag list). -/
def tagHead {α : Type} (su : SubExample α) : Nat := su.tags.headD 0

/-- Modelled from the spec: the OAA training sub-example for one label-cost
pair — the example's shared feature vector, importance weight 1 and
target equal to the pair's cost. -/
def oaaSub {α : Type} [LinearOrderedCommRing α] (ex : CSExample α)
    (p : LabelCost α) : SubExample α :=
  { tags := [p.label], feats := ex.feats, weight := 1, target := p.cost }

/-- Modelled from the spec: the sequence of sub-examples OAA `learn` feeds to
the base learner — one per observed label-cost pair, in ascending label-id
order. -/
def oaaTrainSet {α : Type} [LinearOrderedCommRing α] (ex : CSExample α) :
    List (SubExample α) :=
  (sortPairs ex.pairs).map (oaaSub ex)

namespace OAA

/-- Modelled from the spec: OAA `learn` — validate, then for every label-cost
pair (ascending label id) construct the sub-example and invoke the base
learner's `learn`; an example with zero label-cost pairs is rejected for
learning.  The implementation behind `CSOAA::setup` is absent from src/. -/
def learn {σ α : Type} [LinearOrderedCommRing α] (b : BaseLearner σ α) (s : σ)
    (ex : CSExample α) : Except RedError σ :=
  match validate false ex with
  | some e => .error e
  | none =>
    match ex.pairs with
    | [] => .error .MalformedExample
    | _ :: _ => .ok ((oaaTrainSet ex).foldl b.learnB s)

end OAA

lemma validate_eq_none_of_validCS {α : Type} [LinearOrderedCommRing α]
    {ex : CSExample α} (h : validCS ex) : validate false ex = none := by
  unfold validate
  rw [if_neg (not_not_intro h.1)]
  have hany : ex.pairs.any (fun p => decide (p.cost < 0)) = false := by
    simp only [List.any_eq_false, decide_eq_true_eq, not_lt]
    exact fun p hp => (h.2 p hp).1
  rw [hany]
  simp

lemma sortPairs_perm {α : Type} (l : List (LabelCost α)) :
    (sortPairs l).Perm l :=
  List.perm_insertionSort labelLE l

lemma sortPairs_sorted {α : Type} (l : List (LabelCost α)) :
    List.Sorted labelLE (sortPairs l) :=
  List.sorted_insertionSort labelLE l

lemma sortPairs_sorted_strict {α : Type} {l : List (LabelCost α)}
    (h : (l.map LabelCost.label).Nodup) :
    List.Pairwise (fun a b : LabelCost α => a.label < b.label) (sortPairs l) := by
  have hs : List.Pairwise labelLE (sortPairs l) := sortPairs_sorted l
  have hn : ((sortPairs l).map LabelCost.label).Nodup :=
    (((sortPairs_perm l).map LabelCost.label).nodup_iff).mpr h
  have hne : List.Pairwise (fun a b : LabelCost α => a.label ≠ b.label)
      (sortPairs l) := List.pairwise_map.mp hn
  exact (hs.and hne).imp (fun hab => lt_of_le_of_ne hab.1 hab.2)

/-- C1: for every valid cost-sensitive example, OAA `learn` succeeds and its
base-learner `learn` invocations are exactly the folds over `oaaTrainSet`,
which holds exactly one sub-example per label-cost pair present in the example
(a bijection with the pairs, carrying each pair's label and cost), in
ascending label-id order; a label absent from the example's pairs never occurs
among the invocations (it is skipped, not trained with cost 0). -/
theorem c1_oaa_learn_once_per_pair {σ α : Type} [LinearOrderedCommRing α]
    (b : BaseLearner σ α) (s : σ) (ex : CSExample α)
    (hv : validCS ex) (hne : ex.pairs ≠ []) :
    OAA.learn b s ex = .ok ((oaaTrainSet ex).foldl b.learnB s) ∧
    (oaaTrainSet ex).length = ex.pairs.length ∧
    ((oaaTrainSet ex).map fun su => (su.tags, su.target)).Perm
      (ex.pairs.map fun p => ([p.label], p.cost)) ∧
    List.Pairwise (fun su1 su2 => tagHead su1 < tagHead su2) (oaaTrainSet ex) ∧
    (∀ l : Nat, l ∉ ex.pairs.map LabelCost.label →
      ∀ su ∈ oaaTrainSet ex, tagHead su ≠ l) := by
  refine ⟨?_, ?_, ?_, ?_, ?_⟩
  · unfold OAA.learn
    rw [validate_eq_none_of_validCS hv]
    cases hpx : ex.pairs with
    | nil => exact absurd hpx hne
    | cons p ps => rfl
  · unfold oaaTrainSet
    rw [List.length_map]
    exact (sortPairs_perm ex.pairs).length_eq
  · unfold oaaTrainSet
    rw [List.map_map]
    exact (sortPairs_perm ex.pairs).map _
  · unfold oaaTrainSet
    exact List.pairwise_map.mpr (sortPairs_sorted_strict hv.1)
  · intro l hl su hsu hEq
    unfold oaaTrainSet at hsu
    obtain ⟨p, hp, rfl⟩ := List.mem_map.mp hsu
    have hpl : p.label = l := hEq
    exact hl (hpl ▸ List.mem_map_of_mem LabelCost.label
      ((sortPairs_perm ex.pairs).mem_iff.mp hp))

/-- Concrete cost-sensitive example over ℤ with pairs {(1,0),(2,5),(3,2)}. -/
def exOAA : CSExample ℤ :=
  { feats := [1], pairs := [⟨1, 0⟩, ⟨2, 5⟩, ⟨3, 2⟩], ldf := [] }

/-- Call-counting base learner: its state counts `learn` invocations. -/
def countB : BaseLearner Nat ℤ :=
  { predictB := fun _ _ => 0, learnB := fun n _ => n + 1 }

/-- C1 witness: the property instantiated at the concrete valid example. -/
theorem c1_oaa_learn_once_per_pair_witness :
    OAA.learn countB 0 exOAA = .ok ((oaaTrainSet exOAA).foldl countB.learnB 0) ∧
    (oaaTrainSet exOAA).length = exOAA.pairs.length ∧
    ((oaaTrainSet exOAA).map fun su => (su.tags, su.target)).Perm
      (exOAA.pairs.map fun p => ([p.label], p.cost)) ∧
    List.Pairwise (fun su1 su2 => tagHead su1 < tagHead su2) (oaaTrainSet exOAA) ∧
    (∀ l : Nat, l ∉ exOAA.pairs.map LabelCost.label →
      ∀ su ∈ oaaTrainSet exOAA, tagHead su ≠ l) :=
  c1_oaa_learn_once_per_pair countB 0 exOAA (by decide) (by decide)

/-- Modelled from the spec: the difference of two label-dependent feature
vectors (the configured combination used for a pairwise sub-example). -/
def vdiff {α : Type} [LinearOrderedCommRing α] (a b : List α) : List α :=
  List.zipWith (fun x y => x - y) a b

/-- Modelled from the spec: the label-dependent feature vector an example
supplies for a candidate label. -/
def ldfFeat {α : Type} (ex : CSExample α) (l : Nat) : List α :=
  (List.lookup l ex.ldf).getD []

/-- Modelled from the spec: structural validity of an LDF example — the
example is valid and every label present in the label-cost pairs has a
corresponding label-dependent feature entry. -/
def validLDF {α : Type} [LinearOrderedCommRing α] (ex : CSExample α) : Prop :=
  validCS ex ∧ ∀ p ∈ ex.pairs, (List.lookup p.label ex.ldf).isSome

instance {α : Type} [LinearOrderedCommRing α] (ex : CSExample α) :
    Decidable (validLDF ex) :=
  inferInstanceAs (Decidable (_ ∧ _))

/-- Modelled from the spec: the WAP pairwise training sub-example for a
candidate pair (i, j) — feature vector the difference of the two
label-dependent vectors, importance weight |cost(i) − cost(j)|, and binary
target +1 when i (the lower label id) has lower cost ("i preferred over j"
when Δ < 0), −1 otherwise. -/
def wapSub {α : Type} [LinearOrderedCommRing α] (ex : CSExample α)
    (i j : LabelCost α) : SubExample α :=
  { tags := [i.label, j.label]
    feats := vdiff (ldfFeat ex i.label) (ldfFeat ex j.label)
    weight := if i.cost - j.cost < 0 then j.cost - i.cost else i.cost - j.cost
    target := if i.cost - j.cost < 0 then 1 else -1 }

/-- Modelled from the spec: the pairwise sub-examples for a fixed first
candidate i against each later candidate j; a pair with Δ = 0 is skipped
(no discriminating signal), producing no sub-example at all. -/
def wapPairsFrom {α : Type} [LinearOrderedCommRing α] (ex : CSExample α)
    (i : LabelCost α) : List (LabelCost α) → List (SubExample α)
  | [] => []
  | j :: js =>
    if i.cost - j.cost = 0 then wapPairsFrom ex i js
    else wapSub ex i j :: wapPairsFrom ex i js

/-- Modelled from the spec: the pairwise sub-examples over every unordered
pair of the given candidate list, enumerated in ascending (i, j) order. -/
def wapTrainGo {α : Type} [LinearOrderedCommRing α] (ex : CSExample α) :
    List (LabelCost α) → List (SubExample α)
  | [] => []
  | i :: rest => wapPairsFrom ex i rest ++ wapTrainGo ex rest

/-- Modelled from the spec: the sequence of sub-examples WAP `learn` feeds to
the base learner — one per unordered candidate pair with non-zero cost
difference, in ascending (i, j) label-id order. -/
def wapTrainSet {α : Type} [LinearOrderedCommRing α] (ex : CSExample α) :
    List (SubExample α) :=
  wapTrainGo ex (sortPairs ex.pairs)

/-- All unordered pairs of a list, in order of first appearance. -/
def allPairs {β : Type} : List β → List (β × β)
  | [] => []
  | x :: xs => (xs.map fun y => (x, y)) ++ allPairs xs

/-- Modelled from the spec: the number of unordered candidate pairs whose
cost difference is zero (the pairs WAP skips). -/
def zeroPairCount {α : Type} [LinearOrderedCommRing α] (ex : CSExample α) : Nat :=
  (allPairs (sortPairs ex.pairs)).countP
    (fun pq => decide (pq.1.cost - pq.2.cost = 0))

namespace WAP

/-- Modelled from the spec: WAP-LDF `learn` — validate (including LDF mapping
completeness), then for every unordered candidate pair with non-zero cost
difference feed the pairwise sub-example to the base learner; an example
with no candidate labels cannot train (`EmptyCandidateSet`), and a single
candidate yields no pair, so training is a no-op.  The implementation behind
`CSOAA_AND_WAP_LDF::setup` is absent from src/. -/
def learn {σ α : Type} [LinearOrderedCommRing α] (b : BaseLearner σ α) (s : σ)
    (ex : CSExample α) : Except RedError σ :=
  match validate true ex with
  | some e => .error e
  | none =>
    match ex.pairs with
    | [] => .error .EmptyCandidateSet
    | _ :: _ => .ok ((wapTrainSet ex).foldl b.learnB s)

end WAP

lemma validate_true_eq_none_of_validLDF {α : Type} [LinearOrderedCommRing α]
    {ex : CSExample α} (h : validLDF ex) : validate true ex = none := by
  unfold validate
  rw [if_neg (not_not_intro h.1.1)]
  have hany : ex.pairs.any (fun p => decide (p.cost < 0)) = false := by
    simp only [List.any_eq_false, decide_eq_true_eq, not_lt]
    exact fun p hp => (h.1.2 p hp).1
  rw [hany]
  have hldf : ex.pairs.any (fun p => (List.lookup p.label ex.ldf).isNone) = false := by
    simp only [List.any_eq_false]
    intro p hp
    have hs := h.2 p hp
    cases hx : List.lookup p.label ex.ldf with
    | none => rw [hx] at hs; simp at hs
    | some v => simp
  rw [hldf]
  simp

lemma two_mul_step (n L : Nat) (h : 2 * L = n * (n - 1)) :
    2 * (n + L) = (n + 1) * n := by
  cases n with
  | zero => omega
  | succ m =>
    rw [Nat.succ_sub_one] at h
    calc 2 * (m + 1 + L) = 2 * (m + 1) + 2 * L := by ring
    _ = 2 * (m + 1) + (m + 1) * m := by rw [h]
    _ = (m + 1 + 1) * (m + 1) := by ring

lemma length_allPairs {β : Type} (l : List β) :
    2 * (allPairs l).length = l.length * (l.length - 1) := by
  induction l with
  | nil => rfl
  | cons x xs ih =>
    show 2 * ((xs.map fun y => (x, y)) ++ allPairs xs).length = _
    rw [List.length_append, List.length_map, List.length_cons,
      Nat.add_sub_cancel]
    exact two_mul_step xs.length (allPairs xs).length ih

lemma wapPairsFrom_length {α : Type} [LinearOrderedCommRing α]
    (ex : CSExample α) (i : LabelCost α) (js : List (LabelCost α)) :
    (wapPairsFrom ex i js).length
      + js.countP (fun j => decide (i.cost - j.cost = 0)) = js.length := by
  induction js with
  | nil => rfl
  | cons j js ih =>
    unfold wapPairsFrom
    by_cases h : i.cost - j.cost = 0
    · rw [if_pos h, List.countP_cons_of_pos _ _ (by simpa using h)]
      simp only [List.length_cons]
      omega
    · rw [if_neg h, List.countP_cons_of_neg _ _ (by simpa using h)]
      simp only [List.length_cons]
      omega

lemma wapTrainGo_length {α : Type} [LinearOrderedCommRing α]
    (ex : CSExample α) (l : List (LabelCost α)) :
    (wapTrainGo ex l).length
      + (allPairs l).countP (fun pq => decide (pq.1.cost - pq.2.cost = 0))
      = (allPairs l).length := by
  induction l with
  | nil => rfl
  | cons i rest ih =>
    show (wapPairsFrom ex i rest ++ wapTrainGo ex rest).length
      + ((rest.map fun y => (i, y)) ++ allPairs rest).countP _
      = ((rest.map fun y => (i, y)) ++ allPairs rest).length
    rw [List.length_append, List.countP_append, List.countP_map,
      List.length_append, List.length_map]
    have hA := wapPairsFrom_length ex i rest
    have hc : List.countP
        ((fun pq : LabelCost α × LabelCost α =>
          decide (pq.1.cost - pq.2.cost = 0)) ∘ fun y => (i, y)) rest
        = rest.countP (fun j => decide (i.cost - j.cost = 0)) := by
      simp [Function.comp_def]
    rw [hc]
    omega

/-- Concrete LDF example over ℤ: candidates A=1 (cost 1), B=2 (cost 4). -/
def exWAP : CSExample ℤ :=
  { feats := [], pairs := [⟨1, 1⟩, ⟨2, 4⟩], ldf := [(1, [1, 0]), (2, [0, 1])] }

/-- Concrete LDF example over ℤ with equal costs: A=1 and B=2 both cost 2. -/
def exWAPEq : CSExample ℤ :=
  { feats := [], pairs := [⟨1, 2⟩, ⟨2, 2⟩], ldf := [(1, [1, 0]), (2, [0, 1])] }

/-- C2: for every valid example with n ≥ 2 candidate labels, WAP `learn`
succeeds, its base-learner `learn` invocations are exactly the folds over
`wapTrainSet`, and their number is exactly n·(n−1)/2 minus the number of
unordered pairs with zero cost difference — in particular at most n·(n−1)/2. -/
theorem c2_wap_learn_call_count {σ α : Type} [LinearOrderedCommRing α]
    (b : BaseLearner σ α) (s : σ) (ex : CSExample α)
    (hv : validLDF ex) (hn : 2 ≤ ex.pairs.length) :
    WAP.learn b s ex = .ok ((wapTrainSet ex).foldl b.learnB s) ∧
    (wapTrainSet ex).length
      = ex.pairs.length * (ex.pairs.length - 1) / 2 - zeroPairCount ex ∧
    (wapTrainSet ex).length ≤ ex.pairs.length * (ex.pairs.length - 1) / 2 := by
  have hgo := wapTrainGo_length ex (sortPairs ex.pairs)
  have hap := length_allPairs (sortPairs ex.pairs)
  rw [(sortPairs_perm ex.pairs).length_eq] at hap
  have hz : zeroPairCount ex = (allPairs (sortPairs ex.pairs)).countP
      (fun pq => decide (pq.1.cost - pq.2.cost = 0)) := rfl
  refine ⟨?_, ?_, ?_⟩
  · unfold WAP.learn
    rw [validate_true_eq_none_of_validLDF hv]
    cases hpx : ex.pairs with
    | nil => rw [hpx] at hn; simp at hn
    | cons p ps => rfl
  · unfold wapTrainSet
    rw [hz]
    generalize ex.pairs.length * (ex.pairs.length - 1) = N at hap
    unfold wapTrainSet at hgo
    omega
  · unfold wapTrainSet
    generalize ex.pairs.length * (ex.pairs.length - 1) = N at hap
    unfold wapTrainSet at hgo
    omega

/-- C2 witness: the count property at a concrete two-candidate example. -/
theorem c2_wap_learn_call_count_witness :
    WAP.learn countB 0 exWAP = .ok ((wapTrainSet exWAP).foldl countB.learnB 0) ∧
    (wapTrainSet exWAP).length
      = exWAP.pairs.length * (exWAP.pairs.length - 1) / 2 - zeroPairCount exWAP ∧
    (wapTrainSet exWAP).length
      ≤ exWAP.pairs.length * (exWAP.pairs.length - 1) / 2 :=
  c2_wap_learn_call_count countB 0 exWAP (by decide) (by decide)

lemma mem_wapPairsFrom {α : Type} [LinearOrderedCommRing α] {ex : CSExample α}
    {i : LabelCost α} {js : List (LabelCost α)} {su : SubExample α}
    (h : su ∈ wapPairsFrom ex i js) :
    ∃ j ∈ js, i.cost - j.cost ≠ 0 ∧ su = wapSub ex i j := by
  induction js with
  | nil => simp [wapPairsFrom] at h
  | cons j js ih =>
    unfold wapPairsFrom at h
    by_cases hz : i.cost - j.cost = 0
    · rw [if_pos hz] at h
      obtain ⟨j2, hj2, hrest⟩ := ih h
      exact ⟨j2, List.mem_cons_of_mem _ hj2, hrest⟩
    · rw [if_neg hz] at h
      rcases List.mem_cons.mp h with rfl | h2
      · exact ⟨j, List.mem_cons_self _ _, hz, rfl⟩
      · obtain ⟨j2, hj2, hrest⟩ := ih h2
        exact ⟨j2, List.mem_cons_of_mem _ hj2, hrest⟩

lemma mem_wapTrainGo {α : Type} [LinearOrderedCommRing α] {ex : CSExample α}
    {l : List (LabelCost α)} {su : SubExample α}
    (hsort : List.Pairwise (fun a b : LabelCost α => a.label < b.label) l)
    (h : su ∈ wapTrainGo ex l) :
    ∃ i ∈ l, ∃ j ∈ l, i.label < j.label ∧ i.cost - j.cost ≠ 0 ∧
      su = wapSub ex i j := by
  induction l with
  | nil => simp [wapTrainGo] at h
  | cons i rest ih =>
    unfold wapTrainGo at h
    rcases List.mem_append.mp h with h1 | h2
    · obtain ⟨j, hj, hz, heq⟩ := mem_wapPairsFrom h1
      exact ⟨i, List.mem_cons_self _ _, j, List.mem_cons_of_mem _ hj,
        (List.pairwise_cons.mp hsort).1 j hj, hz, heq⟩
    · obtain ⟨i2, hi2, j2, hj2, hlt, hz, heq⟩ :=
        ih (List.pairwise_cons.mp hsort).2 h2
      exact ⟨i2, List.mem_cons_of_mem _ hi2, j2, List.mem_cons_of_mem _ hj2,
        hlt, hz, heq⟩

lemma wapSub_weight {α : Type} [LinearOrderedCommRing α] (ex : CSExample α)
    (i j : LabelCost α) : (wapSub ex i j).weight = |i.cost - j.cost| := by
  show (if i.cost - j.cost < 0 then j.cost - i.cost else i.cost - j.cost) = _
  rcases lt_or_le (i.cost - j.cost) 0 with h | h
  · rw [if_pos h, abs_of_neg h]; ring
  · rw [if_neg (not_lt.mpr h), abs_of_nonneg h]

lemma wapSub_target {α : Type} [LinearOrderedCommRing α] (ex : CSExample α)
    (i j : LabelCost α) :
    (wapSub ex i j).target = (if i.cost < j.cost then (1 : α) else -1) := by
  show (if i.cost - j.cost < 0 then (1 : α) else -1) = _
  by_cases h : i.cost < j.cost
  · rw [if_pos (sub_neg.mpr h), if_pos h]
  · rw [if_neg (fun hc => h (sub_neg.mp hc)), if_neg h]

/-- C3: every sub-example WAP `learn` builds comes from an unordered candidate
pair (i, j) with non-zero cost difference, has importance weight |Δ| and
binary target +1 exactly when the lower-cost label is preferred (i, the
smaller label id, has the lower cost); zero-difference pairs contribute no
sub-example yet `learn` still succeeds (skipping is silent policy, not an
error).  Concretely, costs A=1, B=4 yield exactly one sub-example with weight
3 and target +1 ("A preferred"), and equal costs yield zero sub-examples with
`learn` succeeding without any base-learner call. -/
theorem c3_wap_subexample_weight_target {σ α : Type} [LinearOrderedCommRing α]
    (b : BaseLearner σ α) (s : σ) (ex : CSExample α) (hv : validLDF ex) :
    (∀ su ∈ wapTrainSet ex, ∃ i ∈ ex.pairs, ∃ j ∈ ex.pairs,
      i.label < j.label ∧ i.cost ≠ j.cost ∧ su = wapSub ex i j ∧
      su.weight = |i.cost - j.cost| ∧
      su.target = (if i.cost < j.cost then (1 : α) else -1)) ∧
    (wapTrainSet ex).length + zeroPairCount ex
      = (allPairs (sortPairs ex.pairs)).length ∧
    (ex.pairs ≠ [] →
      WAP.learn b s ex = .ok ((wapTrainSet ex).foldl b.learnB s)) ∧
    ((wapTrainSet exWAP).map fun su => (su.tags, su.weight, su.target))
      = [([1, 2], 3, 1)] ∧
    wapTrainSet exWAPEq = [] ∧
    WAP.learn countB 0 exWAPEq = .ok 0 := by
  refine ⟨?_, wapTrainGo_length ex (sortPairs ex.pairs), ?_, by decide, by decide, rfl⟩
  · intro su hsu
    obtain ⟨i, hi, j, hj, hlt, hz, heq⟩ :=
      mem_wapTrainGo (sortPairs_sorted_strict hv.1.1) hsu
    exact ⟨i, (sortPairs_perm ex.pairs).mem_iff.mp hi,
      j, (sortPairs_perm ex.pairs).mem_iff.mp hj, hlt,
      sub_ne_zero.mp hz, heq,
      heq ▸ wapSub_weight ex i j, heq ▸ wapSub_target ex i j⟩
  · intro hne
    unfold WAP.learn
    rw [validate_true_eq_none_of_validLDF hv]
    cases hpx : ex.pairs with
    | nil => exact absurd hpx hne
    | cons p ps => rfl

/-- C3 witness: the property at a concrete valid two-candidate LDF example. -/
theorem c3_wap_subexample_weight_target_witness :
    (∀ su ∈ wapTrainSet exWAP, ∃ i ∈ exWAP.pairs, ∃ j ∈ exWAP.pairs,
      i.label < j.label ∧ i.cost ≠ j.cost ∧ su = wapSub exWAP i j ∧
      su.weight = |i.cost - j.cost| ∧
      su.target = (if i.cost < j.cost then (1 : ℤ) else -1)) ∧
    (wapTrainSet exWAP).length + zeroPairCount exWAP
      = (allPairs (sortPairs exWAP.pairs)).length ∧
    (exWAP.pairs ≠ [] →
      WAP.learn countB 0 exWAP = .ok ((wapTrainSet exWAP).foldl countB.learnB 0)) ∧
    ((wapTrainSet exWAP).map fun su => (su.tags, su.weight, su.target))
      = [([1, 2], 3, 1)] ∧
    wapTrainSet exWAPEq = [] ∧
    WAP.learn countB 0 exWAPEq = .ok 0 :=
  c3_wap_subexample_weight_target countB 0 exWAP (by decide)

/-- Modelled from the spec: selection scan over candidates in ascending
label-id order — the incumbent is replaced exactly when a later candidate
compares strictly lower, realizing "minimum, ties broken by smallest
label id". -/
def selGo {β : Type} [LinearOrder β] (f : Nat → β) : Nat → List Nat → Nat
  | best, [] => best
  | best, l :: ls => if f l < f best then selGo f l ls else selGo f best ls

lemma selGo_spec {β : Type} [LinearOrder β] (f : Nat → β) :
    ∀ (rest : List Nat) (best : Nat),
      (∀ l ∈ rest, best < l) → List.Pairwise (fun a b : Nat => a < b) rest →
      (selGo f best rest = best ∨ selGo f best rest ∈ rest) ∧
      f (selGo f best rest) ≤ f best ∧
      (∀ l ∈ rest, f (selGo f best rest) ≤ f l) ∧
      (f best = f (selGo f best rest) → selGo f best rest = best) ∧
      (∀ l ∈ rest, f l = f (selGo f best rest) → selGo f best rest ≤ l) := by
  intro rest
  induction rest with
  | nil =>
    intro best _ _
    exact ⟨Or.inl rfl, le_refl _, by simp, fun _ => rfl, by simp⟩
  | cons q qs ih =>
    intro best hlt hpw
    have hq : best < q := hlt q (List.mem_cons_self _ _)
    have hqs : ∀ l ∈ qs, q < l := (List.pairwise_cons.mp hpw).1
    have hpw2 : List.Pairwise (fun a b : Nat => a < b) qs :=
      (List.pairwise_cons.mp hpw).2
    by_cases hc : f q < f best
    · have hred : selGo f best (q :: qs) = selGo f q qs := by
        rw [show selGo f best (q :: qs)
          = if f q < f best then selGo f q qs else selGo f best qs from rfl,
          if_pos hc]
      obtain ⟨hmem, hle, hall, htie, hties⟩ := ih q hqs hpw2
      rw [hred]
      refine ⟨?_, ?_, ?_, ?_, ?_⟩
      · rcases hmem with h | h
        · exact Or.inr (by rw [h]; exact List.mem_cons_self q qs)
        · exact Or.inr (List.mem_cons_of_mem _ h)
      · exact le_of_lt (lt_of_le_of_lt hle hc)
      · intro l hl
        rcases List.mem_cons.mp hl with rfl | hl2
        · exact hle
        · exact hall l hl2
      · intro heq
        exact absurd (heq ▸ lt_of_le_of_lt hle hc) (lt_irrefl _)
      · intro l hl heq
        rcases List.mem_cons.mp hl with rfl | hl2
        · exact le_of_eq (htie heq)
        · exact hties l hl2 heq
    · have hred : selGo f best (q :: qs) = selGo f best qs := by
        rw [show selGo f best (q :: qs)
          = if f q < f best then selGo f q qs else selGo f best qs from rfl,
          if_neg hc]
      obtain ⟨hmem, hle, hall, htie, hties⟩ :=
        ih best (fun l hl => hlt l (List.mem_cons_of_mem _ hl)) hpw2
      rw [hred]
      refine ⟨?_, hle, ?_, htie, ?_⟩
      · rcases hmem with h | h
        · exact Or.inl h
        · exact Or.inr (List.mem_cons_of_mem _ h)
      · intro l hl
        rcases List.mem_cons.mp hl with rfl | hl2
        · exact le_trans hle (not_lt.mp hc)
        · exact hall l hl2
      · intro l hl heq
        rcases List.mem_cons.mp hl with rfl | hl2
        · have h1 : f best ≤ f l := not_lt.mp hc
          have h2 : f best = f (selGo f best qs) :=
            le_antisymm (le_of_le_of_eq h1 heq) hle
          exact le_of_lt (lt_of_eq_of_lt (htie h2) hq)
        · exact hties l hl2 heq

/-- Modelled from the spec: the OAA prediction sub-example for a candidate
label — the same feature vector, without trained weight/target content. -/
def oaaPredSub {α : Type} [LinearOrderedCommRing α] (ex : CSExample α)
    (l : Nat) : SubExample α :=
  { tags := [l], feats := ex.feats, weight := 1, target := 0 }

/-- Modelled from the spec: the estimated cost the base learner predicts for
one candidate label of an example. -/
def oaaScore {σ α : Type} [LinearOrderedCommRing α] (b : BaseLearner σ α)
    (s : σ) (ex : CSExample α) (l : Nat) : α :=
  b.predictB s (oaaPredSub ex l)

namespace OAA

/-- Modelled from the spec: OAA `predict` — validate, then query the base
learner's estimated cost for every candidate label and return the label
with minimum estimated cost, ties broken by smallest label id; with no
candidate labels prediction fails with `NoCandidateLabels`. -/
def predict {σ α : Type} [LinearOrderedCommRing α] (b : BaseLearner σ α)
    (s : σ) (ex : CSExample α) : Except RedError Nat :=
  match validate false ex with
  | some e => .error e
  | none =>
    match (sortPairs ex.pairs).map LabelCost.label with
    | [] => .error .NoCandidateLabels
    | c :: cs => .ok (selGo (oaaScore b s ex) c cs)

end OAA

/-- Oracle base learner: memorizes the target trained for each (tags, feats)
key and predicts exactly the memorized target (0 before training). -/
def oracleB {α : Type} [LinearOrderedCommRing α] [DecidableEq α] :
    BaseLearner (List ((List Nat × List α) × α)) α :=
  { predictB := fun st su => (List.lookup (su.tags, su.feats) st).getD 0
    learnB := fun st su => ((su.tags, su.feats), su.target) :: st }

/-- C4: for every valid example with a non-empty candidate set, OAA `predict`
returns a candidate label whose predicted cost is minimum among all
candidates, breaking ties by the smallest label id; consequently, when all
candidates score identically it returns the smallest label id.  Moreover,
with the oracle base learner trained once on costs {(1,0), (2,5), (3,2)},
`predict` on the same example returns label 1. -/
theorem c4_oaa_predict_min_cost {σ α : Type} [LinearOrderedCommRing α]
    (b : BaseLearner σ α) (s : σ) (ex : CSExample α)
    (hv : validCS ex) (hne : ex.pairs ≠ []) :
    (∃ r, OAA.predict b s ex = .ok r ∧
      r ∈ ex.pairs.map LabelCost.label ∧
      (∀ l ∈ ex.pairs.map LabelCost.label,
        oaaScore b s ex r ≤ oaaScore b s ex l) ∧
      (∀ l ∈ ex.pairs.map LabelCost.label,
        oaaScore b s ex l = oaaScore b s ex r → r ≤ l) ∧
      ((∀ l1 ∈ ex.pairs.map LabelCost.label,
          ∀ l2 ∈ ex.pairs.map LabelCost.label,
          oaaScore b s ex l1 = oaaScore b s ex l2) →
        ∀ l ∈ ex.pairs.map LabelCost.label, r ≤ l)) ∧
    (match OAA.learn oracleB [] exOAA with
      | .ok st => OAA.predict oracleB st exOAA
      | .error e => .error e) = .ok 1 := by
  constructor
  · have hpw : List.Pairwise (fun a b : Nat => a < b)
        ((sortPairs ex.pairs).map LabelCost.label) :=
      List.pairwise_map.mpr (sortPairs_sorted_strict hv.1)
    have hLperm : ((sortPairs ex.pairs).map LabelCost.label).Perm
        (ex.pairs.map LabelCost.label) := (sortPairs_perm ex.pairs).map _
    cases hL : (sortPairs ex.pairs).map LabelCost.label with
    | nil =>
      exfalso
      have h1 := hLperm.length_eq
      rw [hL] at h1
      have h0 : ex.pairs.length = 0 := by simpa using h1.symm
      exact hne (List.length_eq_zero.mp h0)
    | cons c cs =>
      rw [hL] at hpw hLperm
      have hcs : ∀ l ∈ cs, c < l := (List.pairwise_cons.mp hpw).1
      have hpw2 : List.Pairwise (fun a b : Nat => a < b) cs :=
        (List.pairwise_cons.mp hpw).2
      obtain ⟨hmem, hle, hall, htie, hties⟩ :=
        selGo_spec (oaaScore b s ex) cs c hcs hpw2
      have hrmem : selGo (oaaScore b s ex) c cs ∈ c :: cs := by
        rcases hmem with h | h
        · rw [h]; exact List.mem_cons_self c cs
        · exact List.mem_cons_of_mem _ h
      have hmin : ∀ l ∈ c :: cs,
          oaaScore b s ex (selGo (oaaScore b s ex) c cs) ≤ oaaScore b s ex l := by
        intro l hl
        rcases List.mem_cons.mp hl with rfl | hl2
        · exact hle
        · exact hall l hl2
      have htieAll : ∀ l ∈ c :: cs,
          oaaScore b s ex l = oaaScore b s ex (selGo (oaaScore b s ex) c cs) →
          selGo (oaaScore b s ex) c cs ≤ l := by
        intro l hl heq
        rcases List.mem_cons.mp hl with rfl | hl2
        · exact le_of_eq (htie heq)
        · exact hties l hl2 heq
      refine ⟨selGo (oaaScore b s ex) c cs, ?_, hLperm.mem_iff.mp hrmem,
        fun l hl => hmin l (hLperm.mem_iff.mpr hl),
        fun l hl => htieAll l (hLperm.mem_iff.mpr hl),
        fun hAllEq l hl => htieAll l (hLperm.mem_iff.mpr hl)
          (hAllEq l hl _ (hLperm.mem_iff.mp hrmem))⟩
      unfold OAA.predict
      rw [validate_eq_none_of_validCS hv, hL]
  · rfl

/-- C4 witness: the property instantiated at the concrete valid example. -/
theorem c4_oaa_predict_min_cost_witness :
    (∃ r, OAA.predict countB 0 exOAA = .ok r ∧
      r ∈ exOAA.pairs.map LabelCost.label ∧
      (∀ l ∈ exOAA.pairs.map LabelCost.label,
        oaaScore countB 0 exOAA r ≤ oaaScore countB 0 exOAA l) ∧
      (∀ l ∈ exOAA.pairs.map LabelCost.label,
        oaaScore countB 0 exOAA l = oaaScore countB 0 exOAA r → r ≤ l) ∧
      ((∀ l1 ∈ exOAA.pairs.map LabelCost.label,
          ∀ l2 ∈ exOAA.pairs.map LabelCost.label,
          oaaScore countB 0 exOAA l1 = oaaScore countB 0 exOAA l2) →
        ∀ l ∈ exOAA.pairs.map LabelCost.label, r ≤ l)) ∧
    (match OAA.learn oracleB [] exOAA with
      | .ok st => OAA.predict oracleB st exOAA
      | .error e => .error e) = .ok 1 :=
  c4_oaa_predict_min_cost countB 0 exOAA (by decide) (by decide)

/-- Modelled from the spec: the WAP prediction sub-example for a candidate
pair — built the same way as in training, without weight/target content. -/
def wapPredSub {α : Type} [LinearOrderedCommRing α] (ex : CSExample α)
    (i j : LabelCost α) : SubExample α :=
  { tags := [i.label, j.label]
    feats := vdiff (ldfFeat ex i.label) (ldfFeat ex j.label)
    weight := 1, target := 0 }

/-- Modelled from the spec: the winner of one tournament match — the base
learner's score for the pairwise sub-example is positive exactly when the
first (lower-id) candidate is preferred, consistent with the training
target encoding. -/
def matchWinner {σ α : Type} [LinearOrderedCommRing α] (b : BaseLearner σ α)
    (s : σ) (ex : CSExample α) (pq : LabelCost α × LabelCost α) : Nat :=
  if 0 < b.predictB s (wapPredSub ex pq.1 pq.2) then pq.1.label else pq.2.label

/-- Modelled from the spec: the win tally a label accumulates over the
round-robin tournament on all unordered candidate pairs. -/
def winCount {σ α : Type} [LinearOrderedCommRing α] (b : BaseLearner σ α)
    (s : σ) (ex : CSExample α) (l : Nat) : Nat :=
  (allPairs (sortPairs ex.pairs)).countP
    (fun pq => decide (matchWinner b s ex pq = l))

namespace WAP

/-- Modelled from the spec: WAP `predict` — validate, run the round-robin
pairwise tournament accumulating a win tally per label, and return the label
with the highest win count, ties broken by smallest label id; with no
candidate labels prediction fails with `EmptyCandidateSet`, and with exactly
one candidate it trivially returns that candidate. -/
def predict {σ α : Type} [LinearOrderedCommRing α] (b : BaseLearner σ α)
    (s : σ) (ex : CSExample α) : Except RedError Nat :=
  match validate true ex with
  | some e => .error e
  | none =>
    match (sortPairs ex.pairs).map LabelCost.label with
    | [] => .error .EmptyCandidateSet
    | c :: cs =>
      .ok (selGo (fun l => OrderDual.toDual (winCount b s ex l)) c cs)

end WAP

/-- C5: for every valid example with at least two candidate labels, WAP
`predict` runs the pairwise tournament over all n·(n−1)/2 unordered candidate
pairs (the tally `winCount` counts the base learner's pairwise wins) and
returns a candidate label whose win count is highest, breaking win-count ties
by the smallest label id. -/
theorem c5_wap_predict_tournament {σ α : Type} [LinearOrderedCommRing α]
    (b : BaseLearner σ α) (s : σ) (ex : CSExample α)
    (hv : validLDF ex) (hn : 2 ≤ ex.pairs.length) :
    2 * (allPairs (sortPairs ex.pairs)).length
      = ex.pairs.length * (ex.pairs.length - 1) ∧
    (∃ r, WAP.predict b s ex = .ok r ∧
      r ∈ ex.pairs.map LabelCost.label ∧
      (∀ l ∈ ex.pairs.map LabelCost.label,
        winCount b s ex l ≤ winCount b s ex r) ∧
      (∀ l ∈ ex.pairs.map LabelCost.label,
        winCount b s ex l = winCount b s ex r → r ≤ l)) := by
  constructor
  · rw [length_allPairs, (sortPairs_perm ex.pairs).length_eq]
  · have hpw : List.Pairwise (fun a b : Nat => a < b)
        ((sortPairs ex.pairs).map LabelCost.label) :=
      List.pairwise_map.mpr (sortPairs_sorted_strict hv.1.1)
    have hLperm : ((sortPairs ex.pairs).map LabelCost.label).Perm
        (ex.pairs.map LabelCost.label) := (sortPairs_perm ex.pairs).map _
    cases hL : (sortPairs ex.pairs).map LabelCost.label with
    | nil =>
      exfalso
      have h1 := hLperm.length_eq
      rw [hL] at h1
      have h0 : ex.pairs.length = 0 := by simpa using h1.symm
      omega
    | cons c cs =>
      rw [hL] at hpw hLperm
      have hcs : ∀ l ∈ cs, c < l := (List.pairwise_cons.mp hpw).1
      have hpw2 : List.Pairwise (fun a b : Nat => a < b) cs :=
        (List.pairwise_cons.mp hpw).2
      obtain ⟨hmem, hle, hall, htie, hties⟩ :=
        selGo_spec (fun l => OrderDual.toDual (winCount b s ex l)) cs c hcs hpw2
      set r := selGo (fun l => OrderDual.toDual (winCount b s ex l)) c cs with hr
      have hrmem : r ∈ c :: cs := by
        rcases hmem with h | h
        · rw [h]; exact List.mem_cons_self c cs
        · exact List.mem_cons_of_mem _ h
      have hmax : ∀ l ∈ c :: cs, winCount b s ex l ≤ winCount b s ex r := by
        intro l hl
        rcases List.mem_cons.mp hl with rfl | hl2
        · exact OrderDual.toDual_le_toDual.mp hle
        · exact OrderDual.toDual_le_toDual.mp (hall l hl2)
      have htieAll : ∀ l ∈ c :: cs,
          winCount b s ex l = winCount b s ex r → r ≤ l := by
        intro l hl heq
        rcases List.mem_cons.mp hl with rfl | hl2
        · exact le_of_eq (htie (congrArg OrderDual.toDual heq))
        · exact hties l hl2 (congrArg OrderDual.toDual heq)
      refine ⟨r, ?_, hLperm.mem_iff.mp hrmem,
        fun l hl => hmax l (hLperm.mem_iff.mpr hl),
        fun l hl => htieAll l (hLperm.mem_iff.mpr hl)⟩
      unfold WAP.predict
      rw [validate_true_eq_none_of_validLDF hv, hL]

/-- C5 witness: the tournament property at a concrete two-candidate example. -/
theorem c5_wap_predict_tournament_witness :
    2 * (allPairs (sortPairs exWAP.pairs)).length
      = exWAP.pairs.length * (exWAP.pairs.length - 1) ∧
    (∃ r, WAP.predict countB 0 exWAP = .ok r ∧
      r ∈ exWAP.pairs.map LabelCost.label ∧
      (∀ l ∈ exWAP.pairs.map LabelCost.label,
        winCount countB 0 exWAP l ≤ winCount countB 0 exWAP r) ∧
      (∀ l ∈ exWAP.pairs.map LabelCost.label,
        winCount countB 0 exWAP l = winCount countB 0 exWAP r → r ≤ l)) :=
  c5_wap_predict_tournament countB 0 exWAP (by decide) (by decide)

/-- Modelled from the spec: sequential single-pass processing of an example
stream by WAP `learn` — a per-example failure aborts that example only and
leaves the learner state untouched for subsequent examples. -/
def learnSeqWAP {σ α : Type} [LinearOrderedCommRing α] (b : BaseLearner σ α) :
    σ → List (CSExample α) → σ
  | s, [] => s
  | s, e :: rest =>
    match WAP.learn b s e with
    | .ok s2 => learnSeqWAP b s2 rest
    | .error _ => learnSeqWAP b s rest

lemma validate_true_invalid {α : Type} [LinearOrderedCommRing α]
    {ex : CSExample α} (hnodup : (ex.pairs.map LabelCost.label).Nodup)
    (hnn : ∀ p ∈ ex.pairs, 0 ≤ p.cost)
    (hmiss : ∃ p ∈ ex.pairs, List.lookup p.label ex.ldf = none) :
    validate true ex = some .InvalidLDFMapping := by
  unfold validate
  rw [if_neg (not_not_intro hnodup)]
  have hany : ex.pairs.any (fun p => decide (p.cost < 0)) = false := by
    simp only [List.any_eq_false, decide_eq_true_eq, not_lt]
    exact hnn
  rw [hany]
  obtain ⟨p, hp, hnone⟩ := hmiss
  have h3 : (ex.pairs.any fun q => (List.lookup q.label ex.ldf).isNone) = true :=
    List.any_eq_true.mpr ⟨p, hp, by rw [hnone]; rfl⟩
  simp [h3]

/-- C6: for every LDF example whose label-cost pairs contain a label with no
label-dependent feature entry (and which passes the earlier uniqueness and
non-negativity checks), WAP processing fails with `InvalidLDFMapping` — both
`learn` and `predict` — before any base-learner call, and sequential
processing continues from the very state it had before the offending example:
processing `ex :: rest` equals processing `rest` alone. -/
theorem c6_invalid_ldf_mapping_atomic {σ α : Type} [LinearOrderedCommRing α]
    (b : BaseLearner σ α) (s : σ) (ex : CSExample α)
    (hnodup : (ex.pairs.map LabelCost.label).Nodup)
    (hnn : ∀ p ∈ ex.pairs, 0 ≤ p.cost)
    (hmiss : ∃ p ∈ ex.pairs, List.lookup p.label ex.ldf = none) :
    WAP.learn b s ex = .error .InvalidLDFMapping ∧
    WAP.predict b s ex = .error .InvalidLDFMapping ∧
    ∀ rest : List (CSExample α),
      learnSeqWAP b s (ex :: rest) = learnSeqWAP b s rest := by
  have hval := validate_true_invalid hnodup hnn hmiss
  have hlearn : WAP.learn b s ex = .error .InvalidLDFMapping := by
    unfold WAP.learn
    rw [hval]
  refine ⟨hlearn, ?_, ?_⟩
  · unfold WAP.predict
    rw [hval]
  · intro rest
    show (match WAP.learn b s ex with
      | .ok s2 => learnSeqWAP b s2 rest
      | .error _ => learnSeqWAP b s rest) = learnSeqWAP b s rest
    rw [hlearn]

/-- Concrete malformed LDF example over ℤ: a label-cost pair for label 5 but
no feature entry for label 5. -/
def exBadLDF : CSExample ℤ :=
  { feats := [], pairs := [⟨1, 0⟩, ⟨5, 1⟩], ldf := [(1, [1])] }

/-- C6 witness: the atomicity property at the concrete malformed example. -/
theorem c6_invalid_ldf_mapping_atomic_witness :
    WAP.learn countB 0 exBadLDF = .error .InvalidLDFMapping ∧
    WAP.predict countB 0 exBadLDF = .error .InvalidLDFMapping ∧
    ∀ rest : List (CSExample ℤ),
      learnSeqWAP countB 0 (exBadLDF :: rest) = learnSeqWAP countB 0 rest :=
  c6_invalid_ldf_mapping_atomic countB 0 exBadLDF (by decide) (by decide)
    (by decide)

/-- C7: with no candidate labels OAA `predict` fails with `NoCandidateLabels`
while WAP reports `EmptyCandidateSet` (for both predict and learn); with
exactly one candidate WAP `predict` trivially returns that candidate and
WAP `learn` is a no-op performing no base-learner call (its training set is
empty and the state is returned unchanged). -/
theorem c7_candidate_set_edge_cases {σ α : Type} [LinearOrderedCommRing α]
    (b : BaseLearner σ α) (s : σ) (exN exS : CSExample α) (p : LabelCost α)
    (h0 : exN.pairs = []) (h1 : exS.pairs = [p]) (hnn : 0 ≤ p.cost)
    (hldf : (List.lookup p.label exS.ldf).isSome = true) :
    OAA.predict b s exN = .error .NoCandidateLabels ∧
    WAP.predict b s exN = .error .EmptyCandidateSet ∧
    WAP.learn b s exN = .error .EmptyCandidateSet ∧
    WAP.predict b s exS = .ok p.label ∧
    wapTrainSet exS = [] ∧
    WAP.learn b s exS = .ok s := by
  have hval0f : validate false exN = none := by
    unfold validate
    rw [h0]
    simp
  have hval0t : validate true exN = none := by
    unfold validate
    rw [h0]
    simp
  have h2 : (List.lookup p.label exS.ldf).isNone = false := by
    cases hx : List.lookup p.label exS.ldf with
    | none => rw [hx] at hldf; simp at hldf
    | some v => rfl
  have hval1 : validate true exS = none := by
    unfold validate
    rw [h1]
    simp [not_lt.mpr hnn, h2]
  have hts : wapTrainSet exS = [] := by
    unfold wapTrainSet
    rw [h1]
    rfl
  refine ⟨?_, ?_, ?_, ?_, hts, ?_⟩
  · unfold OAA.predict
    rw [hval0f, h0]
    rfl
  · unfold WAP.predict
    rw [hval0t, h0]
    rfl
  · unfold WAP.learn
    rw [hval0t, h0]
  · unfold WAP.predict
    rw [hval1, h1]
    rfl
  · unfold WAP.learn
    rw [hval1, h1, hts]
    rfl

/-- Concrete empty-candidate example over ℤ. -/
def exEmpty : CSExample ℤ := { feats := [], pairs := [], ldf := [] }

/-- Concrete single-candidate LDF example over ℤ. -/
def exSingle : CSExample ℤ := { feats := [], pairs := [⟨7, 3⟩], ldf := [(7, [1])] }

/-- C7 witness: the edge cases at concrete empty and singleton examples. -/
theorem c7_candidate_set_edge_cases_witness :
    OAA.predict countB 0 exEmpty = .error .NoCandidateLabels ∧
    WAP.predict countB 0 exEmpty = .error .EmptyCandidateSet ∧
    WAP.learn countB 0 exEmpty = .error .EmptyCandidateSet ∧
    WAP.predict countB 0 exSingle = .ok (7 : Nat) ∧
    wapTrainSet exSingle = [] ∧
    WAP.learn countB 0 exSingle = .ok 0 :=
  c7_candidate_set_edge_cases countB 0 exEmpty exSingle ⟨7, 3⟩ (by decide)
    (by decide) (by decide) (by decide)

/-- Modelled from the spec: one full deterministic run — for each example in
arrival order, `learn` then `predict`, threading the base-learner state
(a failed `learn` leaves the state unchanged), collecting the predictions. -/
def runSeq {σ α : Type} (learnF : σ → CSExample α → Except RedError σ)
    (predictF : σ → CSExample α → Except RedError Nat) :
    σ → List (CSExample α) → σ × List (Except RedError Nat)
  | s, [] => (s, [])
  | s, e :: rest =>
    let s2 := match learnF s e with
      | .ok s3 => s3
      | .error _ => s
    let pr := runSeq learnF predictF s2 rest
    (pr.1, predictF s2 e :: pr.2)

lemma allPairs_mem {β : Type} :
    ∀ {l : List β}, ∀ pq ∈ allPairs l, pq.1 ∈ l ∧ pq.2 ∈ l := by
  intro l
  induction l with
  | nil => intro pq hpq; exact absurd hpq (by simp [allPairs])
  | cons x xs ih =>
    intro pq hpq
    have hpq2 : pq ∈ (xs.map fun y => (x, y)) ++ allPairs xs := hpq
    rcases List.mem_append.mp hpq2 with h1 | h2
    · obtain ⟨y, hy, rfl⟩ := List.mem_map.mp h1
      exact ⟨List.mem_cons_self _ _, List.mem_cons_of_mem _ hy⟩
    · obtain ⟨ha, hb⟩ := ih pq h2
      exact ⟨List.mem_cons_of_mem _ ha, List.mem_cons_of_mem _ hb⟩

lemma allPairs_fst_lt_snd {α : Type} :
    ∀ {l : List (LabelCost α)},
      List.Pairwise (fun a b : LabelCost α => a.label < b.label) l →
      ∀ pq ∈ allPairs l, pq.1.label < pq.2.label := by
  intro l
  induction l with
  | nil => intro _ pq hpq; exact absurd hpq (by simp [allPairs])
  | cons x xs ih =>
    intro hpw pq hpq
    have hpq2 : pq ∈ (xs.map fun y => (x, y)) ++ allPairs xs := hpq
    rcases List.mem_append.mp hpq2 with h1 | h2
    · obtain ⟨y, hy, rfl⟩ := List.mem_map.mp h1
      exact (List.pairwise_cons.mp hpw).1 y hy
    · exact ih (List.pairwise_cons.mp hpw).2 pq h2

lemma allPairs_pairwise_lex {α : Type} :
    ∀ {l : List (LabelCost α)},
      List.Pairwise (fun a b : LabelCost α => a.label < b.label) l →
      List.Pairwise (fun pq1 pq2 : LabelCost α × LabelCost α =>
        pq1.1.label < pq2.1.label ∨
          (pq1.1.label = pq2.1.label ∧ pq1.2.label < pq2.2.label))
        (allPairs l) := by
  intro l
  induction l with
  | nil => intro _; exact List.Pairwise.nil
  | cons x xs ih =>
    intro hpw
    obtain ⟨hx, hxs⟩ := List.pairwise_cons.mp hpw
    show List.Pairwise _ ((xs.map fun y => (x, y)) ++ allPairs xs)
    rw [List.pairwise_append]
    refine ⟨?_, ih hxs, ?_⟩
    · exact List.pairwise_map.mpr (hxs.imp (fun h => Or.inr ⟨rfl, h⟩))
    · intro a ha c hc
      obtain ⟨y, hy, rfl⟩ := List.mem_map.mp ha
      exact Or.inl (hx c.1 (allPairs_mem c hc).1)

/-- C8: two-run determinism — for any deterministic base learner started from
identical state and any fixed example sequence, two runs of `learn` then
`predict` (OAA or WAP) produce identical final states and identical
prediction sequences; the underlying iteration orders are deterministic:
OAA's sub-examples are in strictly ascending label-id order and WAP's pair
enumeration is in strictly ascending (i, j) lexicographic label-id order with
i < j inside every pair. -/
theorem c8_two_run_determinism {σ α : Type} [LinearOrderedCommRing α]
    (b1 b2 : BaseLearner σ α) (s1 s2 : σ) (exs1 exs2 : List (CSExample α))
    (ex : CSExample α)
    (hb : b1 = b2) (hs : s1 = s2) (hexs : exs1 = exs2) (hv : validCS ex) :
    runSeq (OAA.learn b1) (OAA.predict b1) s1 exs1
      = runSeq (OAA.learn b2) (OAA.predict b2) s2 exs2 ∧
    runSeq (WAP.learn b1) (WAP.predict b1) s1 exs1
      = runSeq (WAP.learn b2) (WAP.predict b2) s2 exs2 ∧
    List.Pairwise (fun su1 su2 => tagHead su1 < tagHead su2) (oaaTrainSet ex) ∧
    (∀ pq ∈ allPairs (sortPairs ex.pairs), pq.1.label < pq.2.label) ∧
    List.Pairwise (fun pq1 pq2 : LabelCost α × LabelCost α =>
      pq1.1.label < pq2.1.label ∨
        (pq1.1.label = pq2.1.label ∧ pq1.2.label < pq2.2.label))
      (allPairs (sortPairs ex.pairs)) := by
  subst hb hs hexs
  exact ⟨rfl, rfl, List.pairwise_map.mpr (sortPairs_sorted_strict hv.1),
    allPairs_fst_lt_snd (sortPairs_sorted_strict hv.1),
    allPairs_pairwise_lex (sortPairs_sorted_strict hv.1)⟩

/-- C8 witness: the determinism property at a concrete base learner, start
state and example sequence. -/
theorem c8_two_run_determinism_witness :
    runSeq (OAA.learn countB) (OAA.predict countB) 0 [exOAA]
      = runSeq (OAA.learn countB) (OAA.predict countB) 0 [exOAA] ∧
    runSeq (WAP.learn countB) (WAP.predict countB) 0 [exOAA]
      = runSeq (WAP.learn countB) (WAP.predict countB) 0 [exOAA] ∧
    List.Pairwise (fun su1 su2 => tagHead su1 < tagHead su2)
      (oaaTrainSet exOAA) ∧
    (∀ pq ∈ allPairs (sortPairs exOAA.pairs), pq.1.label < pq.2.label) ∧
    List.Pairwise (fun pq1 pq2 : LabelCost ℤ × LabelCost ℤ =>
      pq1.1.label < pq2.1.label ∨
        (pq1.1.label = pq2.1.label ∧ pq1.2.label < pq2.2.label))
      (allPairs (sortPairs exOAA.pairs)) :=
  c8_two_run_determinism countB countB 0 0 [exOAA] [exOAA] exOAA rfl rfl rfl
    (by decide)

/-- Modelled from the spec: configuration error taxonomy of the reduction
driver setup. -/
inductive SetupError where
  | UnsupportedReductionKind
  | MissingNumLabels
deriving DecidableEq, Repr

/-- Modelled from the spec: the composite learner interface a reduction
exposes one level up — the identical `predict`/`learn` contract, so the
composite can itself serve as the base of a further outer reduction. -/
structure Learner (σ α : Type) where
  predictL : σ → CSExample α → Except RedError Nat
  learnL : σ → CSExample α → Except RedError σ

/-- Modelled from the spec: the configuration recognized by the reduction
driver — reduction_kind, num_labels (OAA only), ldf_enabled (WAP only). -/
structure Config where
  reduction_kind : String
  num_labels : Option Nat
  ldf_enabled : Bool
deriving DecidableEq, Repr

/-- Modelled from the spec: the OAA composite learner bound over a base
learner (num_labels records the maximum label id expected). -/
def oaaLearner {σ α : Type} [LinearOrderedCommRing α] (b : BaseLearner σ α)
    (_numLabels : Nat) : Learner σ α :=
  { predictL := OAA.predict b, learnL := fun s ex => OAA.learn b s ex }

/-- Modelled from the spec: the WAP-LDF composite learner bound over a base
learner. -/
def wapLearner {σ α : Type} [LinearOrderedCommRing α] (b : BaseLearner σ α)
    (_ldfEnabled : Bool) : Learner σ α :=
  { predictL := WAP.predict b, learnL := fun s ex => WAP.learn b s ex }

/-- Modelled from the spec: `build(config, base_learner)` — the reduction
driver binding a configured reduction over a supplied base learner; it fails
with `UnsupportedReductionKind` on unrecognized kinds and `MissingNumLabels`
when OAA is selected without a positive num_labels bound.  The driver body
behind the setup declarations of csoaa.h is absent from src/. -/
def build {σ α : Type} [LinearOrderedCommRing α] (cfg : Config)
    (b : BaseLearner σ α) : Except SetupError (Learner σ α) :=
  if cfg.reduction_kind = "OAA" then
    match cfg.num_labels with
    | some n =>
      if 0 < n then .ok (oaaLearner b n) else .error .MissingNumLabels
    | none => .error .MissingNumLabels
  else if cfg.reduction_kind = "WAP_LDF" then
    .ok (wapLearner b cfg.ldf_enabled)
  else .error .UnsupportedReductionKind

/-- C9: `build` fails with `UnsupportedReductionKind` for every unrecognized
reduction_kind value, fails with `MissingNumLabels` whenever OAA is selected
without a positive num_labels bound, and for recognized configurations
returns a composite learner whose predict/learn members are exactly the
reduction's `predict`/`learn` over the supplied base learner — the same
contract the base learner exposes. -/
theorem c9_setup_errors {σ α : Type} [LinearOrderedCommRing α]
    (b : BaseLearner σ α) (cfg : Config) :
    (cfg.reduction_kind ≠ "OAA" → cfg.reduction_kind ≠ "WAP_LDF" →
      build cfg b = .error .UnsupportedReductionKind) ∧
    (cfg.reduction_kind = "OAA" →
      (cfg.num_labels = none ∨ cfg.num_labels = some 0) →
      build cfg b = .error .MissingNumLabels) ∧
    (∀ n, cfg.reduction_kind = "OAA" → cfg.num_labels = some n → 0 < n →
      build cfg b = .ok (oaaLearner b n)) ∧
    (cfg.reduction_kind = "WAP_LDF" →
      build cfg b = .ok (wapLearner b cfg.ldf_enabled)) ∧
    (∀ n, (oaaLearner b n).predictL = OAA.predict b ∧
      (∀ s ex, (oaaLearner b n).learnL s ex = OAA.learn b s ex)) ∧
    (∀ e, (wapLearner b e).predictL = WAP.predict b ∧
      (∀ s ex, (wapLearner b e).learnL s ex = WAP.learn b s ex)) := by
  refine ⟨?_, ?_, ?_, ?_, fun n => ⟨rfl, fun s ex => rfl⟩,
    fun e => ⟨rfl, fun s ex => rfl⟩⟩
  · intro h1 h2
    unfold build
    rw [if_neg h1, if_neg h2]
  · intro h1 h2
    unfold build
    rw [if_pos h1]
    rcases h2 with h | h
    · rw [h]
    · rw [h]
      rfl
  · intro n h1 h2 h3
    unfold build
    rw [if_pos h1, h2]
    show (if 0 < n then Except.ok (oaaLearner b n)
      else Except.error SetupError.MissingNumLabels) = _
    rw [if_pos h3]
  · intro h1
    unfold build
    rw [h1]
    rfl

/-- C9 witness: the driver's behavior at concrete configurations. -/
theorem c9_setup_errors_witness :
    build ⟨"BOGUS", none, false⟩ countB = .error .UnsupportedReductionKind ∧
    build ⟨"OAA", none, false⟩ countB = .error .MissingNumLabels ∧
    build ⟨"OAA", some 0, false⟩ countB = .error .MissingNumLabels ∧
    build ⟨"OAA", some 3, false⟩ countB = .ok (oaaLearner countB 3) ∧
    build ⟨"WAP_LDF", none, true⟩ countB = .ok (wapLearner countB true) :=
  ⟨(c9_setup_errors countB ⟨"BOGUS", none, false⟩).1 (by decide) (by decide),
   (c9_setup_errors countB ⟨"OAA", none, false⟩).2.1 rfl (Or.inl rfl),
   (c9_setup_errors countB ⟨"OAA", some 0, false⟩).2.1 rfl (Or.inr rfl),
   (c9_setup_errors countB ⟨"OAA", some 3, false⟩).2.2.1 3 rfl rfl (by decide),
   (c9_setup_errors countB ⟨"WAP_LDF", none, true⟩).2.2.2.1 rfl⟩

/-- One C++ function declaration of the repository header, by enclosing
namespace, function name, parameter types and return type, as written. -/
structure CppDecl where
  ns : String
  name : String
  params : List String
  ret : String
deriving DecidableEq, Repr

/-- The declarations of src/vowpalwabbit/csoaa.h — the complete public
interface of the repository fragment: `LEARNER::learner* setup(vw& all,
po::variables_map& vm)` in namespace CSOAA, and the identical signature in
namespace CSOAA_AND_WAP_LDF. -/
def csoaaHeaderDecls : List CppDecl :=
  [ { ns := "CSOAA", name := "setup",
      params := ["vw&", "po::variables_map&"], ret := "LEARNER::learner*" },
    { ns := "CSOAA_AND_WAP_LDF", name := "setup",
      params := ["vw&", "po::variables_map&"], ret := "LEARNER::learner*" } ]

/-- C10: the public interface is exactly two setup entry points, one in
namespace CSOAA and one in namespace CSOAA_AND_WAP_LDF, both named `setup`,
with the identical parameter list (the global vw state and the parsed option
map — no reduction_kind argument, the reduction kind being selected by the
choice of entry point) and the identical `LEARNER::learner*` return type, so
the result of either is usable wherever a base learner is expected. -/
theorem c10_header_two_setup_entry_points :
    csoaaHeaderDecls.length = 2 ∧
    (∀ d ∈ csoaaHeaderDecls, d.name = "setup") ∧
    (∃ d1 ∈ csoaaHeaderDecls, d1.ns = "CSOAA") ∧
    (∃ d2 ∈ csoaaHeaderDecls, d2.ns = "CSOAA_AND_WAP_LDF") ∧
    (csoaaHeaderDecls.map CppDecl.ns).Nodup ∧
    (∀ d1 ∈ csoaaHeaderDecls, ∀ d2 ∈ csoaaHeaderDecls,
      d1.name = d2.name ∧ d1.params = d2.params ∧ d1.ret = d2.ret) ∧
    (∀ d ∈ csoaaHeaderDecls,
      d.params = ["vw&", "po::variables_map&"] ∧
      d.ret = "LEARNER::learner*" ∧
      ∀ q ∈ d.params, q = "vw&" ∨ q = "po::variables_map&") := by
  decide
